import Mathlib

/-!
Verification of the segmented PIN input widget (container `PinInput` and
per-character cell `PinItem`).

JavaScript strings are modelled as `List Char`.  The cell's `validateValue`
has two aspects in the source: a pure computation of the accepted value and,
when `secretDelay` is configured, the `setSecretDelayed` side effect fired
before the pure part.  Here `validateValue` is the pure computation; the
timer side effect is composed explicitly in the timed cell model below.
-/

namespace ReactPinInput

/-- A JavaScript string, modelled as its list of characters. -/
abbrev JSString := List Char

/-- Model of `rawValue.charCodeAt(0)`.  The numeric branch of `validateValue`
only evaluates this after guarding `!rawValue`, so the default for the empty
string is never observed.  For characters below `0x10000` the UTF-16 code unit
equals the code point; for astral characters `charCodeAt(0)` returns a
surrogate in `0xD800`–`0xDBFF`, which, like the code point itself, lies
outside the digit range `48`–`57`, so the digit test below is unaffected. -/
def charCodeAt0 (s : JSString) : Nat :=
  match s with
  | [] => 0
  | c :: _ => c.toNat

/-- Model of the character class of the default `regexCriteria`
`/^[a-zA-Z0-9]+$/`. -/
def isAlphanumChar (c : Char) : Bool :=
  ('a' ≤ c && c ≤ 'z') || ('A' ≤ c && c ≤ 'Z') || ('0' ≤ c && c ≤ '9')

/-- Model of `regexCriteria.test` for the default regex `/^[a-zA-Z0-9]+$/`:
the whole string is one or more alphanumeric characters. -/
def defaultRegexTest (s : JSString) : Bool :=
  !s.isEmpty && s.all isAlphanumChar

/-- Model of `String.prototype.toUpperCase`.  `Char.toUpper` maps ASCII
`a`–`z` to `A`–`Z` and is the identity elsewhere, which agrees with the
JavaScript mapping on every string accepted by the default regex (the only
place the source applies it). -/
def toUpperJS (s : JSString) : JSString :=
  s.map Char.toUpper

/-- The per-cell configuration relevant to validation and the secret timer:
`validate`, `type`, `regexCriteria`, `secret`, `secretDelay` props of
`PinItem`. -/
structure CellConfig where
  validate : Option (JSString → JSString)
  typeNumeric : Bool
  regexTest : JSString → Bool
  secret : Bool
  secretDelay : Nat

/-- Pure part of `PinItem.validateValue`:
custom validator first, then the numeric branch
(`!rawValue` guard, `charCodeAt(0)` in `48..57`), then the regex branch
(uppercase on match), else reject with the empty string. -/
def validateValue (cfg : CellConfig) (rawValue : JSString) : JSString :=
  match cfg.validate with
  | some f => f rawValue
  | none =>
    if cfg.typeNumeric then
      if rawValue.isEmpty then []
      else if 48 ≤ charCodeAt0 rawValue ∧ charCodeAt0 rawValue ≤ 57 then rawValue
      else []
    else if cfg.regexTest rawValue then toUpperJS rawValue
    else []

/-- A numeric-mode cell configuration with no custom validator
(the widget's defaults: `type = "numeric"`, default regex, no masking). -/
def numericCfg : CellConfig :=
  { validate := none, typeNumeric := true, regexTest := defaultRegexTest,
    secret := false, secretDelay := 0 }

/-- A default-regex-mode cell configuration with no custom validator
(`type` not numeric, default `regexCriteria`). -/
def alphaCfg : CellConfig :=
  { validate := none, typeNumeric := false, regexTest := defaultRegexTest,
    secret := false, secretDelay := 0 }

/-- C2: in numeric mode with no custom validator, a single character is
accepted unchanged exactly when its code point is in `0x30`–`0x39`
(`48`–`57`), any other single character yields the empty string, and the
empty raw value stays empty. -/
theorem numeric_validate_spec (cfg : CellConfig) (h1 : cfg.validate = none)
    (h2 : cfg.typeNumeric = true) (c : Char) :
    validateValue cfg [c] = (if 48 ≤ c.toNat ∧ c.toNat ≤ 57 then [c] else []) ∧
    (validateValue cfg [c] = [c] ↔ (48 ≤ c.toNat ∧ c.toNat ≤ 57)) ∧
    validateValue cfg [] = [] := by
  have hcc : charCodeAt0 [c] = c.toNat := rfl
  refine ⟨?_, ?_, ?_⟩
  · simp [validateValue, h1, h2, hcc, List.isEmpty]
  · simp only [validateValue, h1, h2, hcc, List.isEmpty]
    by_cases hd : 48 ≤ c.toNat ∧ c.toNat ≤ 57
    · simp [hd]
    · simp [hd]
  · simp [validateValue, h1, h2, List.isEmpty]

/-- Witness for `numeric_validate_spec` at the digit `7` and the concrete
numeric configuration. -/
theorem numeric_validate_spec_witness :
    validateValue numericCfg ['7'] =
      (if 48 ≤ '7'.toNat ∧ '7'.toNat ≤ 57 then ['7'] else []) ∧
    (validateValue numericCfg ['7'] = ['7'] ↔ (48 ≤ '7'.toNat ∧ '7'.toNat ≤ 57)) ∧
    validateValue numericCfg [] = [] :=
  numeric_validate_spec numericCfg rfl rfl '7'

/-- C3: in default-regex mode with no custom validator, a single
alphanumeric character is accepted uppercased, and any other single
character is rejected, which empties a non-empty cell (and leaves an empty
cell empty) through the cell's `update`. -/
theorem regex_validate_spec (cfg : CellConfig) (h1 : cfg.validate = none)
    (h2 : cfg.typeNumeric = false) (h3 : cfg.regexTest = defaultRegexTest)
    (c : Char) :
    validateValue cfg [c] = (if isAlphanumChar c then [Char.toUpper c] else []) := by
  simp only [validateValue, h1, h2, h3, defaultRegexTest, if_false, Bool.false_eq_true]
  by_cases ha : isAlphanumChar c
  · simp [ha, defaultRegexTest, toUpperJS, List.isEmpty, List.all]
  · simp [ha, defaultRegexTest, toUpperJS, List.isEmpty, List.all]

/-- Witness for `regex_validate_spec` at the letter `a` and the concrete
default-regex configuration. -/
theorem regex_validate_spec_witness :
    validateValue alphaCfg ['a'] =
      (if isAlphanumChar 'a' then [Char.toUpper 'a'] else []) :=
  regex_validate_spec alphaCfg rfl rfl rfl 'a'

/-- Observable actions of the container: a focus request to a cell, the
external `onChange` callback, the external `onComplete` callback, and the
imperative `clear` / `update` calls made on a cell's handle. -/
inductive Event where
  | focusCell (i : Nat)
  | changed (pin : JSString) (idx : Nat)
  | completed (pin : JSString) (idx : Nat)
  | clearCell (i : Nat)
  | updateCell (i : Nat)
deriving DecidableEq

/-- `PinInput.onItemChange(value, isPasting, index)`: write `value` into the
tracking array, advance the current index (and request focus on the next
cell) when a single character arrived at a non-final slot, fire `onChange`
unless pasting, and fire `onComplete` when the joined pin has full length —
suppressed for paste notifications from any slot but the last.  Returns the
updated array, the final `currentIndex`, and the emitted events in source
order. -/
def onItemChange (L : Nat) (values : List JSString) (value : JSString)
    (isPasting : Bool) (index : Nat) : List JSString × Nat × List Event :=
  let values2 := values.set index value
  let currentIndex := if value.length = 1 ∧ index < L - 1 then index + 1 else index
  let evFocus :=
    if value.length = 1 ∧ index < L - 1 then [Event.focusCell currentIndex] else []
  let pin := List.flatten values2
  let evChange := if isPasting then [] else [Event.changed pin currentIndex]
  let evComplete :=
    if pin.length = L then
      if isPasting ∧ index < L - 1 then [] else [Event.completed pin currentIndex]
    else []
  (values2, currentIndex, evFocus ++ evChange ++ evComplete)

/-- C4: for a one-character change notification from slot `index`, a
non-final slot advances the current index to `index + 1` and requests focus
there, and every external callback of the event carries `index + 1`; the
final slot requests no focus and every callback carries `index`. -/
theorem onItemChange_focus_spec (L : Nat) (values : List JSString)
    (value : JSString) (isPasting : Bool) (index : Nat)
    (h1 : value.length = 1) (hidx : index < L) :
    ((onItemChange L values value isPasting index).2.1 =
      if index < L - 1 then index + 1 else index) ∧
    (index < L - 1 →
      Event.focusCell (index + 1) ∈ (onItemChange L values value isPasting index).2.2) ∧
    (index = L - 1 →
      ∀ j, Event.focusCell j ∉ (onItemChange L values value isPasting index).2.2) ∧
    (∀ pin j, Event.changed pin j ∈ (onItemChange L values value isPasting index).2.2 →
      j = (onItemChange L values value isPasting index).2.1) ∧
    (∀ pin j, Event.completed pin j ∈ (onItemChange L values value isPasting index).2.2 →
      j = (onItemChange L values value isPasting index).2.1) := by
  by_cases hlt : index < L - 1
  · refine ⟨by simp [onItemChange, h1, hlt], fun _ => ?_, fun heq => ?_, ?_, ?_⟩
    · simp [onItemChange, h1, hlt]
    · omega
    · intro pin j hmem
      simp only [onItemChange, h1, hlt, and_self, if_true, true_and] at hmem ⊢
      rcases List.mem_append.1 hmem with hmem | hmem
      · rcases List.mem_append.1 hmem with hmem | hmem
        · simp at hmem
        · split at hmem <;> simp_all
      · split at hmem
        · split at hmem <;> simp_all
        · simp at hmem
    · intro pin j hmem
      simp only [onItemChange, h1, hlt, and_self, if_true, true_and] at hmem ⊢
      rcases List.mem_append.1 hmem with hmem | hmem
      · rcases List.mem_append.1 hmem with hmem | hmem
        · simp at hmem
        · split at hmem <;> simp_all
      · split at hmem
        · split at hmem <;> simp_all
        · simp at hmem
  · have hcond : ¬(value.length = 1 ∧ index < L - 1) := by
      intro h
      exact hlt h.2
    refine ⟨by simp [onItemChange, hcond, hlt], fun h => absurd h hlt, fun _ => ?_, ?_, ?_⟩
    · intro j hmem
      simp only [onItemChange, hcond, if_false] at hmem
      rcases List.mem_append.1 hmem with hmem | hmem
      · rcases List.mem_append.1 hmem with hmem | hmem
        · simp at hmem
        · split at hmem <;> simp_all
      · split at hmem
        · split at hmem <;> simp_all
        · simp at hmem
    · intro pin j hmem
      simp only [onItemChange, hcond, if_false] at hmem ⊢
      rcases List.mem_append.1 hmem with hmem | hmem
      · rcases List.mem_append.1 hmem with hmem | hmem
        · simp at hmem
        · split at hmem <;> simp_all
      · split at hmem
        · split at hmem <;> simp_all
        · simp at hmem
    · intro pin j hmem
      simp only [onItemChange, hcond, if_false] at hmem ⊢
      rcases List.mem_append.1 hmem with hmem | hmem
      · rcases List.mem_append.1 hmem with hmem | hmem
        · simp at hmem
        · split at hmem <;> simp_all
      · split at hmem
        · split at hmem <;> simp_all
        · simp at hmem

/-- Witness for `onItemChange_focus_spec`: a keystroke at slot `1` of a
length-4 widget. -/
theorem onItemChange_focus_spec_witness :
    ((onItemChange 4 [[], [], [], []] ['5'] false 1).2.1 =
      if 1 < 4 - 1 then 1 + 1 else 1) ∧
    (1 < 4 - 1 →
      Event.focusCell (1 + 1) ∈ (onItemChange 4 [[], [], [], []] ['5'] false 1).2.2) ∧
    (1 = 4 - 1 →
      ∀ j, Event.focusCell j ∉ (onItemChange 4 [[], [], [], []] ['5'] false 1).2.2) ∧
    (∀ pin j, Event.changed pin j ∈ (onItemChange 4 [[], [], [], []] ['5'] false 1).2.2 →
      j = (onItemChange 4 [[], [], [], []] ['5'] false 1).2.1) ∧
    (∀ pin j, Event.completed pin j ∈ (onItemChange 4 [[], [], [], []] ['5'] false 1).2.2 →
      j = (onItemChange 4 [[], [], [], []] ['5'] false 1).2.1) :=
  onItemChange_focus_spec 4 [[], [], [], []] ['5'] false 1 rfl (by decide)

/-- Joining a list of one-character strings yields a string whose length is
the number of slots. -/
theorem length_join_of_forall_one (l : List JSString)
    (h : ∀ s ∈ l, s.length = 1) : (List.flatten l).length = l.length := by
  induction l with
  | nil => simp
  | cons a t ih =>
    have ha : a.length = 1 := h a (List.mem_cons_self a t)
    have ht : ∀ s ∈ t, s.length = 1 := fun s hs => h s (List.mem_cons_of_mem a hs)
    simp only [List.flatten_cons, List.length_append, List.length_cons, ha, ih ht]
    omega

/-- C10: a non-paste change notification after which every slot holds
exactly one character fires `onComplete` (exactly one `completed` event,
carrying the joined pin and the event's current index) — also when the pin
was already complete before the keystroke. -/
theorem complete_refires_spec (L : Nat) (values : List JSString)
    (value : JSString) (index : Nat) (hlen : values.length = L)
    (hall : ∀ s ∈ values.set index value, s ≠ [] ∧ s.length ≤ 1) :
    (onItemChange L values value false index).2.2.filter
        (fun e => match e with | Event.completed _ _ => true | _ => false) =
      [Event.completed (List.flatten (values.set index value))
        (onItemChange L values value false index).2.1] := by
  have hone : ∀ s ∈ values.set index value, s.length = 1 := by
    intro s hs
    rcases hall s hs with ⟨hne, hle⟩
    cases s with
    | nil => exact absurd rfl hne
    | cons c t =>
      cases t with
      | nil => rfl
      | cons d u => simp at hle
  have hpin : (List.flatten (values.set index value)).length = L := by
    rw [length_join_of_forall_one _ hone, List.length_set, hlen]
  by_cases hadv : value.length = 1 ∧ index < L - 1
  · simp [onItemChange, hadv, hpin, List.filter]
  · simp [onItemChange, hadv, hpin, List.filter]

/-- Witness for `complete_refires_spec`: overwriting slot `1` of the
already-complete pin `1234` fires `onComplete` again. -/
theorem complete_refires_spec_witness :
    (onItemChange 4 [['1'], ['2'], ['3'], ['4']] ['9'] false 1).2.2.filter
        (fun e => match e with | Event.completed _ _ => true | _ => false) =
      [Event.completed (List.flatten ([['1'], ['2'], ['3'], ['4']].set 1 ['9']))
        (onItemChange 4 [['1'], ['2'], ['3'], ['4']] ['9'] false 1).2.1] :=
  complete_refires_spec 4 [['1'], ['2'], ['3'], ['4']] ['9'] 1 rfl (by decide)

/-- `PinItem.update(updatedValue, isPasting)` on a cell currently holding
`old`: validate, return unchanged with no notification when the validated
value equals the current one outside a paste, otherwise (for a validated
value of fewer than two characters) adopt the validated value and schedule
the deferred `onChange(validated, isPasting)` notification — returned here
as the `Option` component (`setTimeout(..., 0)` defers it to the next event
loop turn). -/
def cellUpdateResult (cfg : CellConfig) (raw old : JSString) (isPasting : Bool) :
    JSString × Option (JSString × Bool) :=
  let validated := validateValue cfg raw
  if validated = old ∧ isPasting = false then (old, none)
  else if validated.length < 2 then (validated, some (validated, isPasting))
  else (old, none)

/-- Without a custom validator, validation never lengthens its input. -/
theorem validateValue_length_le (cfg : CellConfig) (raw : JSString)
    (h : cfg.validate = none) :
    (validateValue cfg raw).length ≤ raw.length := by
  unfold validateValue
  rw [h]
  by_cases ht : cfg.typeNumeric
  · by_cases he : raw.isEmpty
    · simp [ht, he]
    · by_cases hd : 48 ≤ charCodeAt0 raw ∧ charCodeAt0 raw ≤ 57
      · simp [ht, he, hd]
      · simp [ht, he, hd]
  · by_cases hr : cfg.regexTest raw
    · simp [ht, hr, toUpperJS]
    · simp [ht, hr]

/-- C7: for a raw input of at most one character on a cell with no custom
validator, `update` adopts the validated value and schedules the deferred
`(validatedValue, isPasting)` notification whenever the validated value
differs from the current one or the call is a paste; when the validated
value equals the current one and the call is not a paste, the value is
unchanged and no notification is scheduled. -/
theorem update_notify_spec (cfg : CellConfig) (raw old : JSString)
    (isPasting : Bool) (hval : cfg.validate = none) (hraw : raw.length ≤ 1) :
    (¬(validateValue cfg raw = old ∧ isPasting = false) →
      cellUpdateResult cfg raw old isPasting =
        (validateValue cfg raw, some (validateValue cfg raw, isPasting))) ∧
    (validateValue cfg raw = old ∧ isPasting = false →
      cellUpdateResult cfg raw old isPasting = (old, none)) := by
  have hlen : (validateValue cfg raw).length < 2 := by
    have := validateValue_length_le cfg raw hval
    omega
  constructor
  · intro hne
    simp [cellUpdateResult, hne, hlen]
  · intro heq
    simp [cellUpdateResult, heq]

/-- Witness for `update_notify_spec`: typing `5` into an empty numeric cell
adopts `5` and schedules the notification. -/
theorem update_notify_spec_witness :
    (¬(validateValue numericCfg ['5'] = [] ∧ false = false) →
      cellUpdateResult numericCfg ['5'] [] false =
        (validateValue numericCfg ['5'], some (validateValue numericCfg ['5'], false))) ∧
    (validateValue numericCfg ['5'] = [] ∧ false = false →
      cellUpdateResult numericCfg ['5'] [] false = ([], none)) :=
  update_notify_spec numericCfg ['5'] [] false rfl (by decide)

/-- `PinItem.handleKeyDown`: the cell signals `onBackspace` exactly when the
pressed key is Backspace (`keyCode` 8) and its value is empty
(`!value || !value.length`). -/
def backspaceSignals (value : JSString) (keyCode : Nat) : Bool :=
  keyCode == 8 && value.isEmpty

/-- `PinInput.handleBackspace(index)`: focus the previous cell when `index`
is positive, else nothing. -/
def handleBackspace (index : Nat) : List Event :=
  if 0 < index then [Event.focusCell (index - 1)] else []

/-- A Backspace keystroke on the cell at slot `i`: the cell signals
`onBackspace` only when empty, and the container then routes focus; no
cell value is written on this path. -/
def backspaceAt (values : List JSString) (i : Nat) : List JSString × List Event :=
  if backspaceSignals (values.getD i []) 8 then (values, handleBackspace i)
  else (values, [])

/-- C8: Backspace on an empty cell at a positive slot focuses the previous
cell and mutates no value; Backspace on a non-empty cell, or on the empty
first cell, does nothing. -/
theorem backspace_spec (values : List JSString) (i : Nat) :
    (values.getD i [] = [] ∧ 0 < i →
      backspaceAt values i = (values, [Event.focusCell (i - 1)])) ∧
    (values.getD i [] ≠ [] → backspaceAt values i = (values, [])) ∧
    (values.getD i [] = [] ∧ i = 0 → backspaceAt values i = (values, [])) := by
  refine ⟨?_, ?_, ?_⟩
  · intro h
    have hv : values[i]?.getD [] = [] := by simpa [List.getD] using h.1
    simp [backspaceAt, backspaceSignals, handleBackspace, hv, h.2, List.isEmpty]
  · intro h
    have hv : values[i]?.getD [] ≠ [] := by simpa [List.getD] using h
    cases hvc : values[i]?.getD [] with
    | nil => exact absurd hvc hv
    | cons c t => simp [backspaceAt, backspaceSignals, List.getD, hvc, List.isEmpty]
  · intro h
    have hv : values[i]?.getD [] = [] := by simpa [List.getD] using h.1
    simp [backspaceAt, backspaceSignals, handleBackspace, hv, h.2, List.isEmpty]

/-- Witness for `backspace_spec`: Backspace on the empty slot `1` next to a
filled slot `0` focuses slot `0` and changes nothing. -/
theorem backspace_spec_witness :
    backspaceAt [['1'], []] 1 = ([['1'], []], [Event.focusCell (1 - 1)]) :=
  (backspace_spec [['1'], []] 1).1 ⟨rfl, by decide⟩

/-- Deferred cell notifications `(value, isPasting, index)` delivered to
`onItemChange` in scheduling order (the zero-delay timeouts of a synchronous
update burst fire FIFO), threading the container's tracking array and
concatenating the emitted events. -/
def runNotifs (L : Nat) (notifs : List (JSString × Bool × Nat))
    (values : List JSString) : List JSString × List Event :=
  match notifs with
  | [] => (values, [])
  | (v, p, i) :: rest =>
    let r := onItemChange L values v p i
    let r2 := runNotifs L rest r.1
    (r2.1, r.2.2 ++ r2.2)

/-- The synchronous phase of `PinInput.handlePaste`'s `forEach`: each cell
`i` (holding `old`) runs `update(pastedValue[i], true)`, adopting the
validated character and scheduling its notification.  Returns the cells'
new values and the scheduled notifications in index order.  (`getD` needs a
default only out of range; `handlePaste` calls this with
`pasted.length = number of cells`.) -/
def pasteStep (cfg : CellConfig) (pasted : JSString) :
    List JSString → Nat → List JSString × List (JSString × Bool × Nat)
  | [], _ => ([], [])
  | old :: rest, i =>
    let r := cellUpdateResult cfg [pasted.getD i ' '] old true
    let rs := pasteStep cfg pasted rest (i + 1)
    (r.1 :: rs.1,
     (match r.2 with
      | some n => [(n.1, n.2, i)]
      | none => []) ++ rs.2)

/-- `PinInput.handlePaste(pastedValue)` followed by the deferred
notification cascade: a pasted string whose length differs from the
configured `length` is discarded; otherwise every cell is updated with its
character (paste flag set) and the scheduled notifications then run through
`onItemChange` in order.  Returns the cells' values, the container's
tracking array, and the emitted events. -/
def handlePaste (cfg : CellConfig) (L : Nat) (pasted : JSString)
    (cells values : List JSString) :
    List JSString × List JSString × List Event :=
  if pasted.length ≠ L then (cells, values, [])
  else
    let s := pasteStep cfg pasted cells 0
    let r := runNotifs L s.2 values
    (s.1, r.1, r.2)

/-- C5: pasting a string whose length differs from the configured length is
a silent no-op — no cell update runs, no slot changes, and no callback
fires. -/
theorem paste_wrong_length_spec (cfg : CellConfig) (L : Nat)
    (pasted : JSString) (cells values : List JSString)
    (h : pasted.length ≠ L) :
    handlePaste cfg L pasted cells values = (cells, values, []) := by
  simp [handlePaste, h]

/-- Witness for `paste_wrong_length_spec`: pasting three characters into a
four-cell widget changes nothing. -/
theorem paste_wrong_length_spec_witness :
    handlePaste numericCfg 4 ['1', '2', '3'] [[], [], [], []] [[], [], [], []] =
      ([[], [], [], []], [[], [], [], []], []) :=
  paste_wrong_length_spec numericCfg 4 ['1', '2', '3'] [[], [], [], []]
    [[], [], [], []] (by decide)

/-- Setting the slot just past a prefix writes into the head of the
suffix. -/
theorem set_append_length (done rest : List JSString) (v : JSString) :
    (done ++ rest).set done.length v = done ++ rest.set 0 v := by
  induction done with
  | nil => simp
  | cons a t ih => simp [List.set_cons_succ, ih]

/-- The empty notification queue leaves the tracking array alone and emits
nothing. -/
theorem runNotifs_nil (L : Nat) (values : List JSString) :
    runNotifs L [] values = (values, []) := rfl

/-- One step of the notification queue, stated without unfolding the
recursive call, for an already-computed `onItemChange` result. -/
theorem runNotifs_cons_eq (L : Nat) (v : JSString) (p : Bool) (i : Nat)
    (rest : List (JSString × Bool × Nat)) (values values2 : List JSString)
    (ci : Nat) (evs : List Event)
    (h : onItemChange L values v p i = (values2, ci, evs)) :
    runNotifs L ((v, p, i) :: rest) values =
      ((runNotifs L rest values2).1, evs ++ (runNotifs L rest values2).2) := by
  show ((runNotifs L rest (onItemChange L values v p i).1).1,
        (onItemChange L values v p i).2.2 ++
          (runNotifs L rest (onItemChange L values v p i).1).2) = _
  rw [h]

/-- A paste notification of a one-character value at a non-final slot only
writes the slot and requests focus on the next cell: `onChange` is skipped
because of the paste flag, and `onComplete` is suppressed because the slot
is not the last. -/
theorem onItemChange_paste_middle (L : Nat) (done rest : List JSString)
    (r v : JSString) (hv : v.length = 1) (hlt : done.length < L - 1) :
    onItemChange L (done ++ r :: rest) v true done.length =
      (done ++ v :: rest, done.length + 1, [Event.focusCell (done.length + 1)]) := by
  have hset : (done ++ r :: rest).set done.length v = done ++ v :: rest := by
    rw [set_append_length]
    rfl
  simp [onItemChange, hset, hv, hlt]

/-- A paste notification of a one-character value at the last slot writes
the slot, advances nothing, and fires `onComplete` exactly when the joined
pin is full, with current index `L - 1`. -/
theorem onItemChange_paste_last (L : Nat) (done : List JSString) (r v : JSString)
    (hv : v.length = 1) (hkL : done.length + 1 = L) :
    onItemChange L (done ++ [r]) v true done.length =
      (done ++ [v], done.length,
       if (List.flatten (done ++ [v])).length = L
       then [Event.completed (List.flatten (done ++ [v])) done.length] else []) := by
  have hset : (done ++ [r]).set done.length v = done ++ [v] := by
    rw [set_append_length]
    rfl
  have hnotadv : ¬(done.length < L - 1) := by omega
  simp [onItemChange, hset, hv, hnotadv]

/-- The paste cascade: consecutive paste notifications for the suffix of
slots starting at `done.length`, each carrying a one-character value, write
those values in order, emit a focus request after every slot but the last,
and emit the single `completed` event (when the joined pin is full) only
from the last slot's notification, with current index `L - 1`. -/
theorem runNotifs_paste_cascade (L : Nat) (f : Nat → JSString)
    (hf : ∀ i, i < L → (f i).length = 1) :
    ∀ (rest done : List JSString), done.length + rest.length = L → rest ≠ [] →
      runNotifs L ((List.range' done.length rest.length).map (fun i => (f i, true, i)))
          (done ++ rest) =
        (done ++ (List.range' done.length rest.length).map f,
         (List.range' (done.length + 1) (rest.length - 1)).map Event.focusCell ++
           (if (List.flatten (done ++ (List.range' done.length rest.length).map f)).length = L
            then [Event.completed
                    (List.flatten (done ++ (List.range' done.length rest.length).map f))
                    (L - 1)]
            else [])) := by
  intro rest
  induction rest with
  | nil => intro done hsum hne; exact absurd rfl hne
  | cons r rest2 ih =>
    intro done hsum _
    have hk1 : (f done.length).length = 1 := hf done.length (by simp at hsum; omega)
    cases rest2 with
    | nil =>
      have hkL : done.length + 1 = L := by simpa using hsum
      have hL1 : L - 1 = done.length := by omega
      show runNotifs L ((List.range' done.length 1).map (fun i => (f i, true, i)))
          (done ++ [r]) = _
      rw [List.range'_one, List.map_cons, List.map_nil,
        runNotifs_cons_eq L (f done.length) true done.length [] (done ++ [r]) _ _ _
          (onItemChange_paste_last L done r (f done.length) hk1 hkL),
        runNotifs_nil]
      simp [hL1, List.range'_one]
    | cons r2 rest3 =>
      have hlt : done.length < L - 1 := by simp at hsum; omega
      show runNotifs L
          ((List.range' done.length ((r2 :: rest3).length + 1)).map (fun i => (f i, true, i)))
          (done ++ r :: r2 :: rest3) = _
      rw [List.range'_succ, List.map_cons,
        runNotifs_cons_eq L (f done.length) true done.length _ (done ++ r :: r2 :: rest3) _ _ _
          (onItemChange_paste_middle L done (r2 :: rest3) r (f done.length) hk1 hlt)]
      have happ : done ++ f done.length :: r2 :: rest3 =
          (done ++ [f done.length]) ++ r2 :: rest3 := by simp
      have hsum2 : (done ++ [f done.length]).length + (r2 :: rest3).length = L := by
        simp at hsum ⊢
        omega
      have ihr := ih (done ++ [f done.length]) hsum2 (by simp)
      have hlen2 : (done ++ [f done.length]).length = done.length + 1 := by simp
      rw [hlen2] at ihr
      rw [happ, ihr]
      simp only [List.length_cons, Nat.add_sub_cancel]
      have hfoc : List.map Event.focusCell (List.range' (done.length + 1) (rest3.length + 1)) =
          Event.focusCell (done.length + 1) ::
            List.map Event.focusCell (List.range' (done.length + 1 + 1) rest3.length) := by
        rw [List.range'_succ, List.map_cons]
      have hval : done ++ List.map f (List.range' done.length (rest3.length + 1 + 1)) =
          done ++ [f done.length] ++
            List.map f (List.range' (done.length + 1) (rest3.length + 1)) := by
        rw [List.range'_succ, List.map_cons]
        simp
      rw [← hval, hfoc]
      simp

/-- The synchronous paste phase over cells at consecutive indices: when
every pasted character validates to a single character, each cell adopts its
validated character and schedules the paste-flagged notification for its
index. -/
theorem pasteStep_eq (cfg : CellConfig) (pasted : JSString)
    (hvalid : ∀ i, i < pasted.length →
      (validateValue cfg [pasted.getD i ' ']).length = 1) :
    ∀ (cells : List JSString) (k : Nat), k + cells.length ≤ pasted.length →
      pasteStep cfg pasted cells k =
        ((List.range' k cells.length).map (fun i => validateValue cfg [pasted.getD i ' ']),
         (List.range' k cells.length).map
           (fun i => (validateValue cfg [pasted.getD i ' '], true, i))) := by
  intro cells
  induction cells with
  | nil =>
    intro k hk
    rfl
  | cons old rest ihc =>
    intro k hk
    have hkp : k < pasted.length := by simp at hk; omega
    have h1 : (validateValue cfg [pasted.getD k ' ']).length = 1 := hvalid k hkp
    have hcu : cellUpdateResult cfg [pasted.getD k ' '] old true =
        (validateValue cfg [pasted.getD k ' '],
         some (validateValue cfg [pasted.getD k ' '], true)) := by
      simp only [cellUpdateResult]
      rw [if_neg (by simp), if_pos (by omega)]
    have ihr := ihc (k + 1) (by simp at hk ⊢; omega)
    rw [List.length_cons, List.range'_succ, List.map_cons, List.map_cons]
    simp only [pasteStep, hcu, ihr]
    simp

/-- Reading a list through `getD` at the indices `range' pre.length l.length`
of `pre ++ l` recovers `l.map g`. -/
theorem range'_map_getD {β : Type} (g : Char → β) (d : Char) :
    ∀ (l pre : List Char),
      (List.range' pre.length l.length).map (fun i => g ((pre ++ l).getD i d)) =
        l.map g := by
  intro l
  induction l with
  | nil =>
    intro pre
    rfl
  | cons c t iht =>
    intro pre
    rw [List.length_cons, List.range'_succ, List.map_cons, List.map_cons]
    have hhead : (pre ++ c :: t).getD pre.length d = c := by
      rw [List.getD_eq_getElem?_getD, List.getElem?_append_right (le_refl pre.length)]
      simp
    have htail := iht (pre ++ [c])
    simp only [List.length_append, List.length_cons, List.length_nil,
      List.append_assoc, List.singleton_append, Nat.zero_add] at htail
    rw [hhead, htail]

/-- When the pasted string has exactly the configured length, `handlePaste`
is the synchronous update phase followed by the deferred notification
cascade. -/
theorem handlePaste_run (cfg : CellConfig) (L : Nat) (pasted : JSString)
    (cells values : List JSString) (h : pasted.length = L) :
    handlePaste cfg L pasted cells values =
      ((pasteStep cfg pasted cells 0).1,
       (runNotifs L (pasteStep cfg pasted cells 0).2 values).1,
       (runNotifs L (pasteStep cfg pasted cells 0).2 values).2) := by
  unfold handlePaste
  rw [if_neg (fun hne => hne h)]

/-- C1: pasting a string of exactly the configured length (4 or 6) whose
characters all validate in the active mode fills every cell and every slot
of the tracking array, in order, with the validated character, requests
focus on cells `1 .. L-1`, fires no `onChange` (paste flag), and fires
`onComplete` exactly once — as the final event, from the last slot's
notification — with the normalized pin and current index `L - 1`. -/
theorem paste_fill_complete_spec (cfg : CellConfig) (L : Nat) (pasted : JSString)
    (cells values : List JSString) (hnv : cfg.validate = none)
    (hL : L = 4 ∨ L = 6) (hp : pasted.length = L) (hc : cells.length = L)
    (hv : values.length = L)
    (hvalid : ∀ c ∈ pasted, (validateValue cfg [c]).length = 1) :
    handlePaste cfg L pasted cells values =
      (pasted.map (fun c => validateValue cfg [c]),
       pasted.map (fun c => validateValue cfg [c]),
       (List.range' 1 (L - 1)).map Event.focusCell ++
         [Event.completed
           (List.flatten (pasted.map (fun c => validateValue cfg [c]))) (L - 1)]) := by
  have hL1 : 1 ≤ L := by rcases hL with h | h <;> omega
  have hvalid2 : ∀ i, i < pasted.length →
      (validateValue cfg [pasted.getD i ' ']).length = 1 := by
    intro i hi
    have hx : pasted.getD i ' ' = pasted[i] := by
      rw [List.getD_eq_getElem?_getD, List.getElem?_eq_getElem hi]
      rfl
    rw [hx]
    exact hvalid _ (List.getElem_mem hi)
  have hf : ∀ i, i < L →
      ((fun i => validateValue cfg [pasted.getD i ' ']) i).length = 1 := by
    intro i hi
    exact hvalid2 i (by omega)
  have hmap : (List.range' 0 L).map (fun i => validateValue cfg [pasted.getD i ' ']) =
      pasted.map (fun c => validateValue cfg [c]) := by
    have h := range'_map_getD (fun c => validateValue cfg [c]) ' ' pasted []
    simp only [List.length_nil, List.nil_append] at h
    rw [← hp]
    exact h
  have hflat : (List.flatten ((List.range' 0 L).map
      (fun i => validateValue cfg [pasted.getD i ' ']))).length = L := by
    rw [length_join_of_forall_one]
    · rw [List.length_map, List.length_range']
    · intro s hs
      obtain ⟨i, hi, rfl⟩ := List.mem_map.1 hs
      have hiL : i < L := by
        have := List.mem_range'_1.1 hi
        omega
      exact hf i hiL
  have hcas := runNotifs_paste_cascade L
    (fun i => validateValue cfg [pasted.getD i ' ']) hf values []
    (by simp [hv]) (by
      intro hnil
      rw [hnil] at hv
      simp at hv
      omega)
  simp only [List.length_nil, List.nil_append, hv] at hcas
  rw [hflat, if_pos rfl] at hcas
  rw [handlePaste_run cfg L pasted cells values hp,
    pasteStep_eq cfg pasted hvalid2 cells 0 (by omega), hc]
  dsimp only
  rw [hcas]
  dsimp only
  rw [hmap, Nat.zero_add]

/-- Witness for `paste_fill_complete_spec`: pasting `1234` into an empty
four-cell numeric widget. -/
theorem paste_fill_complete_spec_witness :
    handlePaste numericCfg 4 ['1', '2', '3', '4'] [[], [], [], []] [[], [], [], []] =
      (['1', '2', '3', '4'].map (fun c => validateValue numericCfg [c]),
       ['1', '2', '3', '4'].map (fun c => validateValue numericCfg [c]),
       (List.range' 1 (4 - 1)).map Event.focusCell ++
         [Event.completed
           (List.flatten (['1', '2', '3', '4'].map (fun c => validateValue numericCfg [c])))
           (4 - 1)]) :=
  paste_fill_complete_spec numericCfg 4 ['1', '2', '3', '4'] [[], [], [], []]
    [[], [], [], []] rfl (Or.inl rfl) rfl rfl rfl (by decide)

/-- Timed state of one `PinItem`: the cell value, the `showSecret` display
flag, the pending `setTimeout` hide callbacks as `(id, delay, captured raw
value)`, the `secretTimeoutRef`, and the next timer id.  Browser timer ids
are positive (`0`/`null` are falsy in the `if (secretTimeoutRef.current)`
guard), so ids start at `1`. -/
structure CellTimerState where
  value : JSString
  showSecret : Bool
  timers : List (Nat × Nat × JSString)
  secretTimeoutRef : Option Nat
  nextId : Nat
deriving DecidableEq

/-- Initial state of a `PinItem`: `value` from validating `initialValue`,
`showSecret` from the `secret` prop, no pending timer. -/
def pinItemInit (cfg : CellConfig) (initialValue : JSString) : CellTimerState :=
  { value := validateValue cfg initialValue
    showSecret := cfg.secret
    timers := []
    secretTimeoutRef := none
    nextId := 1 }

/-- `PinItem.setSecretDelayed(val)`: show the typed character at once
(`setShowSecret(false)`), cancel the timer recorded in `secretTimeoutRef`
if any, and schedule a fresh hide callback after `delay` ms that will run
`setShowSecret(Boolean(val))` with the *captured* `val`. -/
def setSecretDelayed (delay : Nat) (st : CellTimerState) (val : JSString) :
    CellTimerState :=
  let timers1 :=
    match st.secretTimeoutRef with
    | some tid => st.timers.filter (fun t => t.1 != tid)
    | none => st.timers
  { st with
    showSecret := false
    timers := timers1 ++ [(st.nextId, delay, val)]
    secretTimeoutRef := some st.nextId
    nextId := st.nextId + 1 }

/-- A keystroke routed through `handleChange` → `update(raw)`: the
`validateValue` call first triggers `setSecretDelayed(raw)` when
`secretDelay` is configured, then the value is adopted under `update`'s
guards.  (The deferred owner notification is modelled by
`cellUpdateResult`.) -/
def keystroke (cfg : CellConfig) (st : CellTimerState) (raw : JSString) :
    CellTimerState :=
  let st1 := if cfg.secretDelay ≠ 0 then setSecretDelayed cfg.secretDelay st raw else st
  let validated := validateValue cfg raw
  if validated = st1.value then st1
  else if validated.length < 2 then { st1 with value := validated }
  else st1

/-- Elapse of the pending hide timer `tid`: run
`setShowSecret(Boolean(val))` with the value captured at scheduling time,
and retire the timer.  A cancelled or unknown id does nothing. -/
def fireSecretTimer (st : CellTimerState) (tid : Nat) : CellTimerState :=
  match st.timers.find? (fun t => t.1 == tid) with
  | none => st
  | some t =>
    { st with
      showSecret := !t.2.2.isEmpty
      timers := st.timers.filter (fun u => u.1 != tid) }

/-- Well-formedness of the timer queue: every pending hide timer is the one
recorded in `secretTimeoutRef` (so there is never a stacked second
timer). -/
def SecretInv (st : CellTimerState) : Prop :=
  ∀ t ∈ st.timers, st.secretTimeoutRef = some t.1

/-- C6 (amended): with `secretDelay > 0`, a keystroke immediately unmasks
the display and replaces any pending hide timer with a single fresh one
carrying the keystroke's raw value; when that timer elapses the display
becomes masked exactly when the *captured raw value* was non-empty — the
slot's emptiness at elapse time is not consulted. -/
theorem secret_delay_spec (cfg : CellConfig) (st : CellTimerState)
    (raw : JSString) (hd : 0 < cfg.secretDelay) (hs : cfg.secret = true)
    (hinv : SecretInv st) :
    (keystroke cfg st raw).showSecret = false ∧
    (keystroke cfg st raw).timers = [(st.nextId, cfg.secretDelay, raw)] ∧
    (keystroke cfg st raw).secretTimeoutRef = some st.nextId ∧
    SecretInv (keystroke cfg st raw) ∧
    (fireSecretTimer (keystroke cfg st raw) st.nextId).showSecret = !raw.isEmpty ∧
    (fireSecretTimer (keystroke cfg st raw) st.nextId).timers = [] := by
  have hd0 : cfg.secretDelay ≠ 0 := by omega
  have hfil : (match st.secretTimeoutRef with
      | some tid => st.timers.filter (fun t => t.1 != tid)
      | none => st.timers) = [] := by
    cases href : st.secretTimeoutRef with
    | none =>
      cases ht : st.timers with
      | nil => rfl
      | cons a l =>
        have := hinv a (by rw [ht]; exact List.mem_cons_self a l)
        rw [href] at this
        cases this
    | some tid =>
      rw [List.filter_eq_nil_iff]
      intro t htmem
      have := hinv t htmem
      rw [href] at this
      have htid : t.1 = tid := by
        injection this with h
        exact h.symm
      simp [htid]
  have hsd : setSecretDelayed cfg.secretDelay st raw =
      { st with
        showSecret := false
        timers := [(st.nextId, cfg.secretDelay, raw)]
        secretTimeoutRef := some st.nextId
        nextId := st.nextId + 1 } := by
    unfold setSecretDelayed
    rw [hfil]
    simp
  have hX : (if cfg.secretDelay ≠ 0 then setSecretDelayed cfg.secretDelay st raw else st) =
      setSecretDelayed cfg.secretDelay st raw := if_pos hd0
  have hkk : keystroke cfg st raw =
      (if validateValue cfg raw = (setSecretDelayed cfg.secretDelay st raw).value
       then setSecretDelayed cfg.secretDelay st raw
       else if (validateValue cfg raw).length < 2
         then { setSecretDelayed cfg.secretDelay st raw with value := validateValue cfg raw }
         else setSecretDelayed cfg.secretDelay st raw) := by
    unfold keystroke
    rw [hX]
  have hfields : (keystroke cfg st raw).showSecret = false ∧
      (keystroke cfg st raw).timers = [(st.nextId, cfg.secretDelay, raw)] ∧
      (keystroke cfg st raw).secretTimeoutRef = some st.nextId := by
    rw [hkk, hsd]
    split_ifs <;> exact ⟨rfl, rfl, rfl⟩
  have hfire : fireSecretTimer (keystroke cfg st raw) st.nextId =
      { keystroke cfg st raw with showSecret := !raw.isEmpty, timers := [] } := by
    unfold fireSecretTimer
    rw [hfields.2.1]
    simp [List.find?, List.filter]
  refine ⟨hfields.1, hfields.2.1, hfields.2.2, ?_, ?_, ?_⟩
  · intro t ht
    rw [hfields.2.1] at ht
    simp at ht
    rw [hfields.2.2, ht]
  · rw [hfire]
  · rw [hfire]

/-- Counterexample to C6 as stated: in numeric mode with masking and a
positive delay, the invalid keystroke `x` leaves the slot empty, yet when
the hide timer elapses the display is masked (`showSecret = true`), because
the timer callback consults the captured raw value `"x"` rather than the
slot. -/
theorem secret_delay_claim_counterexample :
    (fireSecretTimer
        (keystroke
          { validate := none, typeNumeric := true, regexTest := defaultRegexTest,
            secret := true, secretDelay := 500 }
          (pinItemInit
            { validate := none, typeNumeric := true, regexTest := defaultRegexTest,
              secret := true, secretDelay := 500 } [])
          ['x']) 1).value = [] ∧
    (fireSecretTimer
        (keystroke
          { validate := none, typeNumeric := true, regexTest := defaultRegexTest,
            secret := true, secretDelay := 500 }
          (pinItemInit
            { validate := none, typeNumeric := true, regexTest := defaultRegexTest,
              secret := true, secretDelay := 500 } [])
          ['x']) 1).showSecret = true := by
  constructor
  · rfl
  · rfl

/-- Witness for `secret_delay_spec`: typing `3` into a fresh masked numeric
cell with a 500 ms delay. -/
theorem secret_delay_spec_witness :
    (keystroke
        { validate := none, typeNumeric := true, regexTest := defaultRegexTest,
          secret := true, secretDelay := 500 }
        (pinItemInit
          { validate := none, typeNumeric := true, regexTest := defaultRegexTest,
            secret := true, secretDelay := 500 } []) ['3']).showSecret = false ∧
    (keystroke
        { validate := none, typeNumeric := true, regexTest := defaultRegexTest,
          secret := true, secretDelay := 500 }
        (pinItemInit
          { validate := none, typeNumeric := true, regexTest := defaultRegexTest,
            secret := true, secretDelay := 500 } []) ['3']).timers =
      [(1, 500, ['3'])] ∧
    (keystroke
        { validate := none, typeNumeric := true, regexTest := defaultRegexTest,
          secret := true, secretDelay := 500 }
        (pinItemInit
          { validate := none, typeNumeric := true, regexTest := defaultRegexTest,
            secret := true, secretDelay := 500 } []) ['3']).secretTimeoutRef =
      some 1 ∧
    SecretInv
      (keystroke
        { validate := none, typeNumeric := true, regexTest := defaultRegexTest,
          secret := true, secretDelay := 500 }
        (pinItemInit
          { validate := none, typeNumeric := true, regexTest := defaultRegexTest,
            secret := true, secretDelay := 500 } []) ['3']) ∧
    (fireSecretTimer
        (keystroke
          { validate := none, typeNumeric := true, regexTest := defaultRegexTest,
            secret := true, secretDelay := 500 }
          (pinItemInit
            { validate := none, typeNumeric := true, regexTest := defaultRegexTest,
              secret := true, secretDelay := 500 } []) ['3']) 1).showSecret =
      !(['3'] : JSString).isEmpty ∧
    (fireSecretTimer
        (keystroke
          { validate := none, typeNumeric := true, regexTest := defaultRegexTest,
            secret := true, secretDelay := 500 }
          (pinItemInit
            { validate := none, typeNumeric := true, regexTest := defaultRegexTest,
              secret := true, secretDelay := 500 } []) ['3']) 1).timers = [] := by
  have h := secret_delay_spec
    { validate := none, typeNumeric := true, regexTest := defaultRegexTest,
      secret := true, secretDelay := 500 }
    (pinItemInit
      { validate := none, typeNumeric := true, regexTest := defaultRegexTest,
        secret := true, secretDelay := 500 } []) ['3']
    (by decide) rfl (by intro t ht; cases ht)
  exact h

/-- A cell handle slot in `elementsRef.current`: `some` when the `PinItem`
is mounted, `none` for a missing or nulled-out reference. -/
abbrev Handle := Option Unit

/-- A method call through a handle: `refs[i]?.op()` (optional chaining)
skips an absent handle, while `refs[i].op()` throws a `TypeError` on one. -/
def jsCall (h : Handle) (optChain : Bool) (ev : Event) : Except String (List Event) :=
  match h with
  | some _ => Except.ok [ev]
  | none => if optChain then Except.ok [] else Except.error "TypeError"

/-- Sequence a list of handle calls, concatenating their events and
propagating the first thrown error. -/
def seqCalls : List (Except String (List Event)) → Except String (List Event)
  | [] => Except.ok []
  | c :: cs =>
    match c with
    | Except.error e => Except.error e
    | Except.ok evs =>
      match seqCalls cs with
      | Except.error e => Except.error e
      | Except.ok evs2 => Except.ok (evs ++ evs2)

/-- Whether an `Except` result is a normal completion. -/
def isOkE (e : Except String (List Event)) : Bool :=
  match e with
  | Except.ok _ => true
  | Except.error _ => false

/-- `PinInput.clear`: `elementsRef.current.forEach((el) => el?.clear())`,
reset of the tracking array, then `elementsRef.current[0]?.focus()` — every
dereference uses optional chaining. -/
def clearOp (refs : List Handle) (values : List JSString) :
    Except String (List JSString × List Event) :=
  match seqCalls ((List.range refs.length).map
      (fun i => jsCall (refs.getD i none) true (Event.clearCell i))) with
  | Except.error e => Except.error e
  | Except.ok evs =>
    match jsCall (refs.getD 0 none) true (Event.focusCell 0) with
    | Except.error e => Except.error e
    | Except.ok evs2 => Except.ok (values.map (fun _ => []), evs ++ evs2)

/-- `PinInput.focusFirstInput`: `if (length > 0)` then
`elementsRef.current[0]?.focus()` — optional chaining. -/
def focusFirstOp (L : Nat) (refs : List Handle) : Except String (List Event) :=
  if 0 < L then jsCall (refs.getD 0 none) true (Event.focusCell 0) else Except.ok []

/-- The mount effect: `if (focus && length) elementsRef.current[0].focus()`
— note the dereference is *not* guarded by optional chaining. -/
def mountFocusOp (focusProp : Bool) (L : Nat) (refs : List Handle) :
    Except String (List Event) :=
  if focusProp ∧ L ≠ 0 then jsCall (refs.getD 0 none) false (Event.focusCell 0)
  else Except.ok []

/-- `PinInput.handleBackspace(index)`: `if (index > 0)` then
`elementsRef.current[index - 1]?.focus()` — optional chaining. -/
def backspaceRouteOp (refs : List Handle) (index : Nat) :
    Except String (List Event) :=
  if 0 < index then jsCall (refs.getD (index - 1) none) true (Event.focusCell (index - 1))
  else Except.ok []

/-- The focus advance inside `onItemChange`:
`elementsRef.current[currentIndex]?.focus()` — optional chaining. -/
def advanceFocusOp (refs : List Handle) (currentIndex : Nat) :
    Except String (List Event) :=
  jsCall (refs.getD currentIndex none) true (Event.focusCell currentIndex)

/-- The dereference discipline of `PinInput.handlePaste`: after the length
check, each `elementsRef.current` entry is used only under the guard
`if (el && typeof el.update === "function")`, so an absent handle is
skipped. -/
def pasteDistributeOp (refs : List Handle) (pasted : JSString) (L : Nat) :
    Except String (List Event) :=
  if pasted.length ≠ L then Except.ok []
  else
    seqCalls ((List.range refs.length).map
      (fun i =>
        match refs.getD i none with
        | some _ => Except.ok [Event.updateCell i]
        | none => Except.ok []))

/-- An optionally-chained call never throws. -/
theorem jsCall_optChain_ok (h : Handle) (ev : Event) :
    isOkE (jsCall h true ev) = true := by
  cases h with
  | none => rfl
  | some u => rfl

/-- Sequencing calls that all completed normally completes normally. -/
theorem seqCalls_ok (cs : List (Except String (List Event)))
    (h : ∀ c ∈ cs, isOkE c = true) : isOkE (seqCalls cs) = true := by
  induction cs with
  | nil => rfl
  | cons c cs2 ih =>
    have hc := h c (List.mem_cons_self c cs2)
    have hcs := ih (fun x hx => h x (List.mem_cons_of_mem c hx))
    cases c with
    | error e => cases hc
    | ok evs =>
      cases hseq : seqCalls cs2 with
      | error e =>
        rw [hseq] at hcs
        cases hcs
      | ok evs2 => simp [seqCalls, hseq, isOkE]

/-- Whether a result (possibly carrying a payload) is a normal
completion. -/
def isOkP (e : Except String (List JSString × List Event)) : Bool :=
  match e with
  | Except.ok _ => true
  | Except.error _ => false

/-- C9 (amended): every container code path that dereferences a cell handle
through optional chaining or an explicit guard — `clear`, focus-first,
backspace routing, the focus advance, and paste distribution — is a safe
no-op on absent handles; the auto-focus-on-mount effect alone dereferences
the first handle unguarded and is safe only when that handle is present. -/
theorem handle_safety_spec (refs : List Handle) (values : List JSString)
    (L index currentIndex : Nat) (pasted : JSString) (focusProp : Bool) :
    isOkP (clearOp refs values) = true ∧
    isOkE (focusFirstOp L refs) = true ∧
    isOkE (backspaceRouteOp refs index) = true ∧
    isOkE (advanceFocusOp refs currentIndex) = true ∧
    isOkE (pasteDistributeOp refs pasted L) = true ∧
    ((refs.getD 0 none).isSome = true →
      isOkE (mountFocusOp focusProp L refs) = true) := by
  refine ⟨?_, ?_, ?_, ?_, ?_, ?_⟩
  · have h1 : isOkE (seqCalls ((List.range refs.length).map
        (fun i => jsCall (refs.getD i none) true (Event.clearCell i)))) = true := by
      apply seqCalls_ok
      intro c hc
      obtain ⟨i, hi, rfl⟩ := List.mem_map.1 hc
      exact jsCall_optChain_ok _ _
    unfold clearOp
    cases hseq : seqCalls ((List.range refs.length).map
        (fun i => jsCall (refs.getD i none) true (Event.clearCell i))) with
    | error e =>
      rw [hseq] at h1
      cases h1
    | ok evs =>
      have h2 := jsCall_optChain_ok (refs.getD 0 none) (Event.focusCell 0)
      cases hj : jsCall (refs.getD 0 none) true (Event.focusCell 0) with
      | error e =>
        rw [hj] at h2
        cases h2
      | ok evs2 => rfl
  · unfold focusFirstOp
    split
    · exact jsCall_optChain_ok _ _
    · rfl
  · unfold backspaceRouteOp
    split
    · exact jsCall_optChain_ok _ _
    · rfl
  · exact jsCall_optChain_ok _ _
  · unfold pasteDistributeOp
    split
    · rfl
    · apply seqCalls_ok
      intro c hc
      obtain ⟨i, hi, rfl⟩ := List.mem_map.1 hc
      cases refs.getD i none with
      | none => rfl
      | some u => rfl
  · intro hsome
    unfold mountFocusOp
    split
    · cases hr : refs.getD 0 none with
      | none =>
        rw [hr] at hsome
        cases hsome
      | some u => rfl
    · rfl

/-- Witness for `handle_safety_spec`: a widget whose second cell handle is
absent, with the first present. -/
theorem handle_safety_spec_witness :
    isOkP (clearOp [some (), none] [['1'], ['2']]) = true ∧
    isOkE (focusFirstOp 2 [some (), none]) = true ∧
    isOkE (backspaceRouteOp [some (), none] 1) = true ∧
    isOkE (advanceFocusOp [some (), none] 1) = true ∧
    isOkE (pasteDistributeOp [some (), none] ['1', '2'] 2) = true ∧
    (([some (), none].getD 0 none).isSome = true →
      isOkE (mountFocusOp true 2 [some (), none]) = true) :=
  handle_safety_spec [some (), none] [['1'], ['2']] 2 1 1 ['1', '2'] true

/-- Counterexample to C9 as stated: with the auto-focus prop set and no
mounted cell handles, the mount effect's unguarded
`elementsRef.current[0].focus()` throws instead of being a safe no-op. -/
theorem handle_safety_claim_counterexample :
    mountFocusOp true 4 [none, none, none, none] = Except.error "TypeError" := by
  rfl

end ReactPinInput
